import Mathlib

/-!
Shallow embedding of the LLM request dispatcher in
`src/llm_models/utils_model.py` (class `LLMRequest`): the score table and
selector (`_select_model`), the per-endpoint retry engine
(`_attempt_request_on_model`), the failover orchestrator
(`_execute_request`), reasoning extraction (`_extract_reasoning`) and tool
option validation (`_build_tool_options`).

External collaborators (the network client, the message compressor, the
message factory) are parameters: the client is a script mapping
(iteration, call index) to the outcome the client call produces, the
compressor and factory are abstract functions.  Messages are abstracted to
lists of naturals.  The interpreter threads an explicit trace (client calls
with the payload each used, backoff sleeps, compressor invocations) so
that counting properties of the spec can be stated.  `asyncio` scheduling
is irrelevant for a single request executed alone, so the `async` code is
modelled as a sequential interpreter; potential non-termination of the
Python loop is modelled with a fuel parameter (`none` = divergence).
-/

namespace MaiBot

/-- Outcome of one low-level client call, mirroring the exceptions
`_attempt_request_on_model` can see: a normal return, `EmptyResponseException`,
`NetworkConnectionError`, `RespNotOkException(status)`, or any other
exception. Responses are abstracted to a natural number identifier. -/
inductive ClientResult where
  | success (resp : Nat)
  | emptyResponse
  | networkError
  | httpError (status : Nat)
  | otherError
deriving DecidableEq

/-- The original exception carried inside a `ModelAttemptFailed`. -/
inductive Exc where
  | emptyResp
  | netErr
  | respNotOk (status : Nat)
  | otherErr
deriving DecidableEq

/-- The three distinct ways `_attempt_request_on_model` raises
`ModelAttemptFailed`: retries exhausted on a transient error (lines 288/299),
a hard error (lines 314/318), and the never-attempted case when the retry
budget is configured as zero or less (line 320, with no original exception). -/
inductive AttemptFailure where
  | retriesExhausted (orig : Exc)
  | hardError (orig : Exc)
  | neverAttempted
deriving DecidableEq

/-- Trace of externally visible effects: each client call with the model it
went to and the message payload it carried, each backoff sleep with its
duration, and the number of `compress_messages` invocations. -/
structure Stats where
  calls : List (String × List Nat)
  sleeps : List Int
  compressions : Nat
deriving DecidableEq

/-- Python truthiness of the optional compressed message list:
`None` and the empty list are falsy. -/
def truthyOpt (o : Option (List Nat)) : Bool :=
  match o with
  | some l => !l.isEmpty
  | none => false

/-- `compressed_messages or message_list` (line 261): the compressed list is
used only when it is truthy (non-`None` and non-empty). -/
def payloadUsed (compressed : Option (List Nat)) (messageList : List Nat) : List Nat :=
  match compressed with
  | some l => if l.isEmpty then messageList else l
  | none => messageList

/-- The `while retry_remain > 0` loop of `_attempt_request_on_model`
(lines 256-320).  `script` gives the outcome of the i-th client call of this
attempt; `interval` is `api_provider.retry_interval`; `compress` is
`compress_messages`.  State: current call index, the local
`compressed_messages` variable, the remaining retry budget, and the trace.
The first `Nat` argument is fuel: the 413-compression branch re-enters the
loop without consuming retry budget, so the Python loop is not structurally
decreasing; running out of fuel returns `none`.

Branches, in the order of the Python code: a successful call returns; an
`EmptyResponseException` or `NetworkConnectionError` decrements the budget,
raising retries-exhausted at zero and otherwise sleeping `interval` and
retrying; an HTTP 429 or >= 500 status gets the same transient handling; a
413 status with a truthy `message_list` and no truthy compressed payload yet
compresses `message_list` once and retries immediately without consuming
budget; any other status, and any other exception, raise a hard error.
If the loop is never entered (budget configured as zero or less), the
never-attempted failure is raised. -/
def attemptGo (script : Nat → ClientResult) (interval : Int)
    (compress : List Nat → List Nat) (modelName : String)
    (messageList : List Nat) :
    Nat → Nat → Option (List Nat) → Nat → Stats →
    Option (Except AttemptFailure Nat × Stats)
  | 0, _, _, _, _ => none
  | fuel + 1, callIdx, compressed, retryRemain, st =>
    if retryRemain = 0 then
      some (.error .neverAttempted, st)
    else
      let st1 : Stats :=
        { st with calls := st.calls ++ [(modelName, payloadUsed compressed messageList)] }
      match script callIdx with
      | .success r => some (.ok r, st1)
      | .emptyResponse =>
        if retryRemain - 1 = 0 then
          some (.error (.retriesExhausted .emptyResp), st1)
        else
          attemptGo script interval compress modelName messageList fuel
            (callIdx + 1) compressed (retryRemain - 1)
            { st1 with sleeps := st1.sleeps ++ [interval] }
      | .networkError =>
        if retryRemain - 1 = 0 then
          some (.error (.retriesExhausted .netErr), st1)
        else
          attemptGo script interval compress modelName messageList fuel
            (callIdx + 1) compressed (retryRemain - 1)
            { st1 with sleeps := st1.sleeps ++ [interval] }
      | .httpError s =>
        if s = 429 ∨ s ≥ 500 then
          if retryRemain - 1 = 0 then
            some (.error (.retriesExhausted (.respNotOk s)), st1)
          else
            attemptGo script interval compress modelName messageList fuel
              (callIdx + 1) compressed (retryRemain - 1)
              { st1 with sleeps := st1.sleeps ++ [interval] }
        else if s = 413 ∧ messageList.isEmpty = false ∧ truthyOpt compressed = false then
          attemptGo script interval compress modelName messageList fuel
            (callIdx + 1) (some (compress messageList)) retryRemain
            { st1 with compressions := st1.compressions + 1 }
        else
          some (.error (.hardError (.respNotOk s)), st1)
      | .otherError => some (.error (.hardError .otherErr), st1)

/-- `_attempt_request_on_model`: `retry_remain` starts at
`api_provider.max_retry` (line 254), an `Int` in the configuration; the loop
runs only while it is positive. -/
def attemptRequestOnModel (script : Nat → ClientResult) (interval : Int)
    (compress : List Nat → List Nat) (modelName : String)
    (messageList : List Nat) (maxRetry : Int)
    (compressed : Option (List Nat)) (fuel : Nat) (st : Stats) :
    Option (Except AttemptFailure Nat × Stats) :=
  attemptGo script interval compress modelName messageList fuel 0 compressed
    maxRetry.toNat st

/-- A score-table entry `(total_tokens, penalty, usage_penalty)` as stored in
`self.model_usage` (line 56). The Python values are ints. -/
abbrev Score := Int × Int × Int

/-- The selection cost (line 222):
`total_tokens + penalty * 300 + usage_penalty * 1000`. -/
def costOf (s : Score) : Int := s.1 + s.2.1 * 300 + s.2.2 * 1000

/-- `self.model_usage = {model: (0, 0, 0) for model in model_list}` (lines
56-58): a dict comprehension keeps the position of a key's first occurrence
and all values are `(0, 0, 0)`, so duplicates are dropped. -/
def initUsage (models : List String) : List (String × Score) :=
  models.foldl
    (fun acc m => if acc.any (fun e => e.1 = m) then acc else acc ++ [(m, (0, 0, 0))])
    []

/-- The dict comprehension filter in `_select_model` (lines 212-216):
`if not exclude_models or model not in exclude_models`.  An empty exclusion
set is falsy, so everything is kept. -/
def availableOf (usage : List (String × Score)) (excluded : List String) :
    List (String × Score) :=
  usage.filter (fun e => excluded.isEmpty || !excluded.contains e.1)

/-- `min(available_models, key=...)` (lines 220-223): the first key attaining
the minimal cost, in table iteration order. -/
def pickMin (l : List (String × Score)) : Option (String × Score) :=
  match l with
  | [] => none
  | x :: xs =>
    some (xs.foldl (fun best y => if costOf y.2 < costOf best.2 then y else best) x)

/-- The in-flight increment on selection (lines 229-230):
`self.model_usage[name] = (total_tokens, penalty, usage_penalty + 1)`.
Keys of `initUsage` are unique, so mapping over all matching entries agrees
with the dict update. -/
def bumpUsagePenalty (usage : List (String × Score)) (m : String) :
    List (String × Score) :=
  usage.map (fun e => if e.1 = m then (e.1, (e.2.1, e.2.2.1, e.2.2.2 + 1)) else e)

/-- The failure-penalty increment in the `except` block of `_execute_request`
(lines 369-370): `(total_tokens, penalty + 1, usage_penalty)`. -/
def bumpFailPenalty (usage : List (String × Score)) (m : String) :
    List (String × Score) :=
  usage.map (fun e => if e.1 = m then (e.1, (e.2.1, e.2.2.1 + 1, e.2.2.2)) else e)

/-- The `finally` block of `_execute_request` (lines 377-380): decrement
`usage_penalty` only when it is positive. -/
def decUsagePenaltyIfPos (usage : List (String × Score)) (m : String) :
    List (String × Score) :=
  usage.map (fun e =>
    if e.1 = m then
      if e.2.2.2 > 0 then (e.1, (e.2.1, e.2.2.1, e.2.2.2 - 1)) else e
    else e)

/-- `_select_model` (lines 208-231): filter out excluded models, fail when
nothing remains, pick the minimal-cost model, and bump its in-flight penalty.
Returns the chosen model name and the updated table, or `none` for the
`RuntimeError` when no model is available. -/
def selectModel (usage : List (String × Score)) (excluded : List String) :
    Option (String × List (String × Score)) :=
  match pickMin (availableOf usage excluded) with
  | none => none
  | some (m, _) => some (m, bumpUsagePenalty usage m)

/-- `last_exception = e.original_exception or e` (line 367): either the
original exception, or the `ModelAttemptFailed` itself when it carries none
(the never-attempted case). -/
inductive LastExc where
  | exc (e : Exc)
  | attemptFail (f : AttemptFailure)
deriving DecidableEq

/-- Which `last_exception` a given `ModelAttemptFailed` produces. -/
def lastExcOf : AttemptFailure → LastExc
  | .retriesExhausted e => .exc e
  | .hardError e => .exc e
  | .neverAttempted => .attemptFail .neverAttempted

/-- State threaded through the failover loop of `_execute_request`:
the score table, `failed_models_this_request` (a set, kept here as a
duplicate-free list in insertion order), `last_exception`, the
orchestrator-level `compressed_messages` variable (line 341; the code never
assigns it after initialisation), and the effect trace. -/
structure ExecState where
  usage : List (String × Score)
  failed : List String
  lastExc : Option LastExc
  compressedMessages : Option (List Nat)
  stats : Stats
deriving DecidableEq

/-- How a call to `_execute_request` resolves: a successful response with
the chosen model, an exception re-raised from `last_exception` (the HTTP 400
abort at line 375 and the post-loop re-raise at line 384), the generic
`RuntimeError` at line 385, the `RuntimeError` propagating out of
`_select_model` (line 218), or divergence (fuel exhaustion inside an
attempt). -/
inductive ExecResult where
  | ok (resp : Nat) (model : String)
  | raised (e : LastExc)
  | allFailedGeneric
  | noModelAvailable
  | diverged
deriving DecidableEq

/-- Result of one iteration of the failover loop: finish with a result, or
continue with an updated state. -/
inductive StepOut where
  | done (r : ExecResult) (st : ExecState)
  | next (st : ExecState)
deriving DecidableEq

/-- Request configuration: the task's model list, the per-model provider
settings (`max_retry`, `retry_interval`), the optional message factory (absent
for embedding and audio requests), and the external `compress_messages`. -/
structure Config where
  modelList : List String
  maxRetry : String → Int
  retryInterval : String → Int
  messageFactory : Option (String → List Nat)
  compress : List Nat → List Nat

/-- `message_list = []` unless a factory was supplied (lines 346-348). -/
def messageListOf (cfg : Config) (m : String) : List Nat :=
  match cfg.messageFactory with
  | some f => f m
  | none => []

/-- One iteration of the `for _attempt in range(max_attempts)` loop of
`_execute_request` (lines 343-380): select a model (raising when none is
available), build the message list, run the attempt with the
orchestrator-level `compressed_messages`, and then either return the
response, or record `last_exception`, bump the failure penalty, add the
model to the failed set, and — after the `finally` decrement of the
in-flight penalty — abort the whole request on an underlying HTTP 400 or
continue with the next iteration.  The `finally` decrement also runs on the
success path; on divergence the attempt never concludes, so the `finally`
block never runs. -/
def execStep (cfg : Config) (script : Nat → Nat → ClientResult) (fuel : Nat)
    (it : Nat) (st : ExecState) : StepOut :=
  match selectModel st.usage st.failed with
  | none => .done .noModelAvailable st
  | some (m, usage1) =>
    match attemptRequestOnModel (script it) (cfg.retryInterval m) cfg.compress m
        (messageListOf cfg m) (cfg.maxRetry m) st.compressedMessages fuel
        st.stats with
    | none => .done .diverged { st with usage := usage1 }
    | some (.ok r, st2) =>
      .done (.ok r m)
        { st with usage := decUsagePenaltyIfPos usage1 m, stats := st2 }
    | some (.error f, st2) =>
      let le := lastExcOf f
      let usage2 := bumpFailPenalty usage1 m
      let failed2 := if st.failed.contains m then st.failed else st.failed ++ [m]
      let st' : ExecState :=
        { usage := decUsagePenaltyIfPos usage2 m
          failed := failed2
          lastExc := some le
          compressedMessages := st.compressedMessages
          stats := st2 }
      if le = .exc (.respNotOk 400) then .done (.raised le) st' else .next st'

/-- The failover loop, by the number of remaining iterations; when the loop
exhausts all iterations without success, `last_exception` is re-raised if
recorded, else the generic all-failed error is raised (lines 382-385). -/
def execLoop (cfg : Config) (script : Nat → Nat → ClientResult) (fuel : Nat) :
    Nat → Nat → ExecState → ExecResult × ExecState
  | 0, _, st =>
    (match st.lastExc with
     | some e => (.raised e, st)
     | none => (.allFailedGeneric, st))
  | r + 1, it, st =>
    match execStep cfg script fuel it st with
    | .done res st' => (res, st')
    | .next st' => execLoop cfg script fuel r (it + 1) st'

/-- Initial state of a request: fresh score table, empty failed set, no
`last_exception`, no compressed messages, empty trace. -/
def initState (cfg : Config) : ExecState :=
  { usage := initUsage cfg.modelList
    failed := []
    lastExc := none
    compressedMessages := none
    stats := ⟨[], [], 0⟩ }

/-- `_execute_request` (lines 322-385): run the failover loop for
`max_attempts = len(model_list)` iterations from the initial state. -/
def executeRequest (cfg : Config) (script : Nat → Nat → ClientResult)
    (fuel : Nat) : ExecResult × ExecState :=
  execLoop cfg script fuel cfg.modelList.length 0 (initState cfg)

/-! ### `_extract_reasoning` (lines 424-430)

The Python code runs `re.search(r"(?:<think>)?(.*?)</think>", content,
re.DOTALL)` and `re.sub(..., "", content, count=1).strip()` with the same
pattern.  The pattern is embedded directly: the engine scans for the
leftmost starting position admitting a match; at a position, the greedy
optional group first tries to consume a literal `<think>`, the lazy group
then extends to the nearest following literal `</think>`; if that fails, the
optional group backtracks to empty.  `re.DOTALL` makes `.` match newlines,
so the lazy group has no character restriction at all. -/

/-- The literal `<think>` marker. -/
def openThink : List Char := "<think>".toList

/-- The literal `</think>` marker. -/
def closeThink : List Char := "</think>".toList

/-- Index of the first occurrence of `pat` in `s` (first position at which
`pat` is a prefix of the remaining suffix), if any. -/
def findSub (pat : List Char) : List Char → Option Nat
  | [] => if pat.isPrefixOf ([] : List Char) then some 0 else none
  | c :: rest =>
    if pat.isPrefixOf (c :: rest) then some 0
    else (findSub pat rest).map (· + 1)

/-- A regex match: start, group 1 start, group 1 end, match end. -/
structure ReMatch where
  mStart : Nat
  gStart : Nat
  gEnd : Nat
  mEnd : Nat
deriving DecidableEq

/-- Attempt a match of `(?:<think>)?(.*?)</think>` at the start of `s`: if
`<think>` is present the greedy optional consumes it and the lazy group runs
to the nearest `</think>` after it; on failure the optional backtracks to
empty and the lazy group runs from the start to the nearest `</think>`.
Positions are relative to the start of `s`. -/
def tryMatch (s : List Char) : Option ReMatch :=
  if openThink.isPrefixOf s then
    match findSub closeThink (s.drop 7) with
    | some j => some ⟨0, 7, 7 + j, 7 + j + 8⟩
    | none =>
      match findSub closeThink s with
      | some j => some ⟨0, 0, j, j + 8⟩
      | none => none
  else
    match findSub closeThink s with
    | some j => some ⟨0, 0, j, j + 8⟩
    | none => none

/-- `re.search`: the match at the leftmost position admitting one. -/
def searchThink : List Char → Option ReMatch
  | [] =>
    (match tryMatch [] with
     | some t => some t
     | none => none)
  | c :: rest =>
    match tryMatch (c :: rest) with
    | some t => some t
    | none =>
      (searchThink rest).map (fun t => ⟨t.mStart + 1, t.gStart + 1, t.gEnd + 1, t.mEnd + 1⟩)

/-- Python whitespace stripped by `str.strip()` (ASCII). -/
def isSpaceChar (c : Char) : Bool :=
  c = ' ' || c = '\t' || c = '\n' || c = '\r' || c = '\x0b' || c = '\x0c'

/-- `str.strip()`: drop leading and trailing whitespace. -/
def pyStrip (s : List Char) : List Char :=
  ((s.dropWhile isSpaceChar).reverse.dropWhile isSpaceChar).reverse

/-- `_extract_reasoning` (lines 424-430): search for the first
`(?:<think>)?(.*?)</think>` match, remove that first match from the content
(count=1) and strip the result, and return the stripped group 1 as the
reasoning, or the empty string when there is no match. -/
def extractReasoning (content : List Char) : List Char × List Char :=
  let mo := searchThink content
  let subbed :=
    match mo with
    | some m => content.take m.mStart ++ content.drop m.mEnd
    | none => content
  let reasoning :=
    match mo with
    | some m => pyStrip ((content.drop m.gStart).take (m.gEnd - m.gStart))
    | none => []
  (pyStrip subbed, reasoning)

/-! ### `_build_tool_options` (lines 387-422)

Tool parameter tuples are dynamically typed in Python; the relevant slice of
the value universe is embedded as `PyVal`.  The code validates, for each
parameter, via a chain of `assert isinstance` checks; an `AssertionError` is
caught and logged — but the log line evaluates `param[0]`, which itself
raises (`TypeError`/`IndexError`) when the parameter is not subscriptable or
is empty, and that secondary exception is NOT caught by the sibling
`except Exception` clause, so it escapes `_build_tool_options` entirely.

`ToolOptionBuilder` lives in `payload_content/tool_option.py`, which is not
part of this repository slice.  Modelled from the spec: tool-schema
construction is an external collaborator (spec §1, §4.5), so the builder is
embedded as a pure collector of the validated fields that never fails. -/

/-- A dynamically typed Python value, restricted to the shapes
`_build_tool_options` can observe. -/
inductive PyVal where
  | pstr (s : String)
  | pbool (b : Bool)
  | pint (n : Int)
  | ptype (t : Nat)
  | pnone
  | plist (l : List PyVal)
  | ptuple (l : List PyVal)

/-- Python subscript `v[0]`, as used by the `except AssertionError` log line:
defined for non-empty tuples, lists and strings, raising (`none`) otherwise. -/
def sub0 : PyVal → Option PyVal
  | .ptuple (x :: _) => some x
  | .plist (x :: _) => some x
  | .pstr s => if s.isEmpty then none else some (.pstr (String.mk [s.toList.head!]))
  | _ => none

/-- A validated parameter record as handed to the builder:
(name, type index, description, required, enum values). -/
abbrev ParamEntry := String × Nat × String × Bool × Option (List PyVal)

/-- Outcome of validating one parameter: accepted, rejected with the
`AssertionError` handled (tool marked illegal, loop continues), or rejected
with the handler itself raising (the whole build aborts). -/
inductive ParamRes where
  | valid (e : ParamEntry)
  | invalidHandled
  | invalidCrash

/-- The per-parameter `assert` chain (lines 401-406), in order: 5-tuple
shape, name is `str`, type is `ToolParamType`, description is `str`,
required is `bool`, enum values are a `list` or `None`.  On the first failed
assertion the handler evaluates `param[0]`: if that raises, the failure
escapes. -/
def validateParam (p : PyVal) : ParamRes :=
  match p with
  | .ptuple [a, b, c, d, e] =>
    match a, b, c, d, e with
    | .pstr name, .ptype ty, .pstr desc, .pbool req, .plist ev =>
      .valid (name, ty, desc, req, some ev)
    | .pstr name, .ptype ty, .pstr desc, .pbool req, .pnone =>
      .valid (name, ty, desc, req, none)
    | _, _, _, _, _ =>
      match sub0 (.ptuple [a, b, c, d, e]) with
      | some _ => .invalidHandled
      | none => .invalidCrash
  | q =>
    match sub0 q with
    | some _ => .invalidHandled
    | none => .invalidCrash

/-- One externally supplied tool descriptor: `tool.get("name", "")`,
`tool.get("description", "")`, `tool.get("parameters", [])`. -/
structure PyTool where
  name : String
  description : String
  parameters : List PyVal

/-- The built tool option: name, description, and the validated parameters
handed to the builder (builder modelled from the spec as a collector). -/
structure ToolOptionM where
  name : String
  description : String
  params : List ParamEntry

/-- The inner parameter loop (lines 399-419): every parameter is processed,
valid ones are added to the builder even after the tool was marked illegal,
and a non-subscriptable invalid parameter aborts the whole build. -/
def processParams : List PyVal → Bool → List ParamEntry →
    Except Unit (Bool × List ParamEntry)
  | [], legal, acc => .ok (legal, acc)
  | p :: ps, legal, acc =>
    match validateParam p with
    | .valid e => processParams ps legal (acc ++ [e])
    | .invalidHandled => processParams ps false acc
    | .invalidCrash => .error ()

/-- The outer tool loop (lines 393-421): build each tool, append it only
when all its parameters validated. -/
def processTools : List PyTool → List ToolOptionM →
    Except Unit (List ToolOptionM)
  | [], acc => .ok acc
  | t :: ts, acc =>
    match processParams t.parameters true [] with
    | .error () => .error ()
    | .ok (legal, ps) =>
      processTools ts
        (if legal then acc ++ [⟨t.name, t.description, ps⟩] else acc)

/-- `_build_tool_options` (lines 387-422): `None` for a falsy `tools`
argument (absent or empty list), otherwise process every tool and return
`tool_options or None` — an empty survivor list also becomes `None`. -/
def buildToolOptions (tools : Option (List PyTool)) :
    Except Unit (Option (List ToolOptionM)) :=
  match tools with
  | none => .ok none
  | some [] => .ok none
  | some ts =>
    match processTools ts [] with
    | .error () => .error ()
    | .ok acc => .ok (if acc.isEmpty then none else some acc)

/-! ## Claim theorems -/

/-- Claim C8: for every endpoint whose configured retry budget is zero or
less, `_attempt_request_on_model` raises the never-attempted failure without
a single client call and without sleeping (the trace is returned unchanged),
and that failure is a constructor distinct from transient exhaustion and
from a hard error. -/
theorem C8_zero_budget_never_attempted (script : Nat → ClientResult)
    (interval : Int) (compress : List Nat → List Nat) (m : String)
    (msgs : List Nat) (maxRetry : Int) (compressed : Option (List Nat))
    (fuel : Nat) (st : Stats) (h : maxRetry ≤ 0) :
    attemptRequestOnModel script interval compress m msgs maxRetry compressed
        (fuel + 1) st
      = some (.error .neverAttempted, st)
    ∧ (∀ e : Exc, AttemptFailure.neverAttempted ≠ .retriesExhausted e
        ∧ AttemptFailure.neverAttempted ≠ .hardError e) := by
  refine ⟨?_, fun e => ⟨by simp, by simp⟩⟩
  unfold attemptRequestOnModel
  rw [Int.toNat_of_nonpos h]
  simp [attemptGo]

/-- Witness for C8 at a concrete input. -/
theorem C8_zero_budget_never_attempted_witness :
    attemptRequestOnModel (fun _ => .networkError) 1 id "A" [1] (-1) none 1
        ⟨[], [], 0⟩
      = some (.error .neverAttempted, ⟨[], [], 0⟩) :=
  (C8_zero_budget_never_attempted (fun _ => .networkError) 1 id "A" [1] (-1)
    none 0 ⟨[], [], 0⟩ (by decide)).1

/-- Claim C10: when the message list is empty — as it is for every request
executed without a message factory, which includes all embedding and audio
requests — an HTTP 413 response is not handled by compression: the attempt
aborts at once with a hard failure, the compressor count and the sleep list
are unchanged, and the result does not depend on the remaining retry budget
(no budget is consumed). -/
theorem C10_empty_messages_413_fatal (script : Nat → ClientResult)
    (interval : Int) (compress : List Nat → List Nat) (m : String)
    (compressed : Option (List Nat)) (fuel callIdx retryRemain : Nat)
    (st : Stats) (hscript : script callIdx = .httpError 413)
    (hr : retryRemain ≠ 0) :
    attemptGo script interval compress m [] (fuel + 1) callIdx compressed
        retryRemain st
      = some (.error (.hardError (.respNotOk 413)),
          { st with calls := st.calls ++ [(m, payloadUsed compressed [])] })
    ∧ (∀ cfg : Config, cfg.messageFactory = none → messageListOf cfg m = []) := by
  constructor
  · simp only [attemptGo, hr, if_false, hscript]
    norm_num
  · intro cfg h
    simp [messageListOf, h]

/-- Witness for C10 at a concrete input. -/
theorem C10_empty_messages_413_fatal_witness :
    attemptGo (fun _ => .httpError 413) 1 id "A" [] 1 0 none 5 ⟨[], [], 0⟩
      = some (.error (.hardError (.respNotOk 413)), ⟨[("A", [])], [], 0⟩) := by
  have h := (C10_empty_messages_413_fatal (fun _ => .httpError 413) 1 id "A"
    none 0 0 5 ⟨[], [], 0⟩ rfl (by decide)).1
  simpa using h

/-- Configuration for the C1 scenario: two endpoints `A` and `B`, retry
budget 2, a one-message payload, and a compressor that prepends a marker. -/
def c1cfg : Config :=
  { modelList := ["A", "B"]
    maxRetry := fun _ => 2
    retryInterval := fun _ => 1
    messageFactory := some (fun _ => [1])
    compress := fun l => 0 :: l }

/-- Client script for the C1 scenario: endpoint `A` answers 413 and then 500
until its budget is exhausted; endpoint `B` answers 413 and then succeeds. -/
def c1script : Nat → Nat → ClientResult := fun it j =>
  if it = 0 then (if j = 0 then .httpError 413 else .httpError 500)
  else (if j = 0 then .httpError 413 else .success 7)

/-- Claim C1 (evaluation at the failing input): in a single request, after
endpoint `A`'s 413 produced a compressed payload and `A` was exhausted,
failover to endpoint `B` calls the compressor a second time, and `B`'s first
call carries the original payload `[1]`, not the compressed one: the
orchestrator-level `compressed_messages` of `_execute_request` is never
updated, because the rebinding at line 309 is local to
`_attempt_request_on_model`. -/
theorem C1_compressor_invoked_twice :
    (executeRequest c1cfg c1script 10).2.stats.compressions = 2
    ∧ (executeRequest c1cfg c1script 10).1 = .ok 7 "B"
    ∧ (executeRequest c1cfg c1script 10).2.stats.calls
        = [("A", [1]), ("A", [0, 1]), ("A", [0, 1]), ("B", [1]), ("B", [0, 1])] := by
  refine ⟨?_, ?_, ?_⟩ <;> rfl

/-- The outcomes `_attempt_request_on_model` treats as transient, with the
original exception they carry: `EmptyResponseException`,
`NetworkConnectionError`, and HTTP 429 or >= 500. -/
def transientExcOf : ClientResult → Option Exc
  | .emptyResponse => some .emptyResp
  | .networkError => some .netErr
  | .httpError s => if s = 429 ∨ s ≥ 500 then some (.respNotOk s) else none
  | _ => none

/-- Claim C5: a transient outcome (network error, empty response, HTTP 429
or >= 500) decrements the retry budget; with budget remaining the engine
sleeps the fixed backoff interval once and retries with the payload
unchanged (the recursive call carries the same compressed-payload state);
with the last budget unit it raises the wrapped transient-exhausted
failure; and with `maxRetry = 3` and a client failing transiently exactly
twice before succeeding, the attempt succeeds with exactly 3 client calls
and exactly 2 backoff sleeps. -/
theorem C5_transient_retry_then_success (script : Nat → ClientResult)
    (interval : Int) (compress : List Nat → List Nat) (m : String)
    (msgs : List Nat) (fuel callIdx : Nat) (compressed : Option (List Nat))
    (st : Stats) (e : Exc) (h : transientExcOf (script callIdx) = some e) :
    (∀ retryRemain, 2 ≤ retryRemain →
      attemptGo script interval compress m msgs (fuel + 1) callIdx compressed
          retryRemain st
        = attemptGo script interval compress m msgs fuel (callIdx + 1)
            compressed (retryRemain - 1)
            { st with calls := st.calls ++ [(m, payloadUsed compressed msgs)]
                      sleeps := st.sleeps ++ [interval] })
    ∧ attemptGo script interval compress m msgs (fuel + 1) callIdx compressed
          1 st
        = some (.error (.retriesExhausted e),
            { st with calls := st.calls ++ [(m, payloadUsed compressed msgs)] })
    ∧ attemptRequestOnModel (fun j => if j < 2 then .networkError else .success 5)
          7 id "A" [1] 3 none 10 ⟨[], [], 0⟩
        = some (.ok 5, ⟨[("A", [1]), ("A", [1]), ("A", [1])], [7, 7], 0⟩) := by
  refine ⟨?_, ?_, rfl⟩
  · intro rr hrr
    have h0 : ¬rr = 0 := by omega
    have h1 : ¬rr - 1 = 0 := by omega
    cases hc : script callIdx with
    | emptyResponse =>
      simp only [transientExcOf, hc, Option.some.injEq] at h
      subst h
      simp only [attemptGo, h0, if_false, hc, h1]
    | networkError =>
      simp only [transientExcOf, hc, Option.some.injEq] at h
      subst h
      simp only [attemptGo, h0, if_false, hc, h1]
    | httpError s =>
      simp only [transientExcOf, hc] at h
      split at h
      next hcond =>
        simp only [Option.some.injEq] at h
        subst h
        simp only [attemptGo, h0, if_false, hc, hcond, if_pos, h1]
      next => exact absurd h (by simp)
    | success r => simp [transientExcOf, hc] at h
    | otherError => simp [transientExcOf, hc] at h
  · cases hc : script callIdx with
    | emptyResponse =>
      simp only [transientExcOf, hc, Option.some.injEq] at h
      subst h
      simp [attemptGo, hc]
    | networkError =>
      simp only [transientExcOf, hc, Option.some.injEq] at h
      subst h
      simp [attemptGo, hc]
    | httpError s =>
      simp only [transientExcOf, hc] at h
      split at h
      next hcond =>
        simp only [Option.some.injEq] at h
        subst h
        simp [attemptGo, hc, hcond]
      next => exact absurd h (by simp)
    | success r => simp [transientExcOf, hc] at h
    | otherError => simp [transientExcOf, hc] at h

/-- Witness for C5 at a concrete input. -/
theorem C5_transient_retry_then_success_witness :
    attemptGo (fun _ => .httpError 503) 4 id "A" [2] 3 0 none 1 ⟨[], [], 0⟩
      = some (.error (.retriesExhausted (.respNotOk 503)), ⟨[("A", [2])], [], 0⟩) := by
  have h := (C5_transient_retry_then_success (fun _ => .httpError 503) 4 id "A"
    [2] 2 0 none ⟨[], [], 0⟩ (.respNotOk 503) (by norm_num [transientExcOf])).2.1
  simpa using h

/-- The running value of `pickMin`'s fold stays among its inputs and attains
the minimal cost. -/
theorem pickMin_fold_spec (xs : List (String × Score)) (x : String × Score) :
    (xs.foldl (fun best y => if costOf y.2 < costOf best.2 then y else best) x = x
      ∨ xs.foldl (fun best y => if costOf y.2 < costOf best.2 then y else best) x ∈ xs)
    ∧ costOf (xs.foldl (fun best y => if costOf y.2 < costOf best.2 then y else best) x).2
        ≤ costOf x.2
    ∧ ∀ y ∈ xs,
        costOf (xs.foldl (fun best y => if costOf y.2 < costOf best.2 then y else best) x).2
          ≤ costOf y.2 := by
  induction xs generalizing x with
  | nil => simp
  | cons z zs ih =>
    simp only [List.foldl_cons]
    by_cases hc : costOf z.2 < costOf x.2
    · rw [if_pos hc]
      rcases ih z with ⟨hmem, hle, hall⟩
      refine ⟨?_, ?_, ?_⟩
      · right
        rcases hmem with h | h
        · rw [h]; exact List.mem_cons_self z zs
        · exact List.mem_cons_of_mem z h
      · exact le_trans hle (le_of_lt hc)
      · intro y hy
        rcases List.mem_cons.mp hy with rfl | hy
        · exact hle
        · exact hall y hy
    · rw [if_neg hc]
      rcases ih x with ⟨hmem, hle, hall⟩
      refine ⟨?_, ?_, ?_⟩
      · rcases hmem with h | h
        · exact Or.inl h
        · exact Or.inr (List.mem_cons_of_mem z h)
      · exact hle
      · intro y hy
        rcases List.mem_cons.mp hy with rfl | hy
        · exact le_trans hle (not_lt.mp hc)
        · exact hall y hy

/-- Claim C4: whenever the exclusion set leaves at least one configured
endpoint available, `_select_model` returns a non-excluded endpoint of the
table whose cost `total_tokens + penalty * 300 + usage_penalty * 1000` is
minimal among the available ones (bumping its in-flight penalty), and on the
score table (100,0,0), (50,0,0) with nothing excluded it picks the second
endpoint.  Selection is a pure function of the table, hence deterministic. -/
theorem C4_selector_minimizes_cost (usage : List (String × Score))
    (excluded : List String) (h : availableOf usage excluded ≠ []) :
    (∃ p : String × Score,
      selectModel usage excluded = some (p.1, bumpUsagePenalty usage p.1)
      ∧ p ∈ availableOf usage excluded
      ∧ p ∈ usage
      ∧ (excluded.isEmpty || !excluded.contains p.1) = true
      ∧ ∀ e ∈ availableOf usage excluded, costOf p.2 ≤ costOf e.2)
    ∧ selectModel [("a", ((100 : Int), 0, 0)), ("b", (50, 0, 0))] []
        = some ("b", [("a", (100, 0, 0)), ("b", (50, 0, 1))]) := by
  refine ⟨?_, rfl⟩
  cases havail : availableOf usage excluded with
  | nil => exact absurd havail h
  | cons x xs =>
    rcases pickMin_fold_spec xs x with ⟨hmem, hle, hall⟩
    set r := xs.foldl (fun best y => if costOf y.2 < costOf best.2 then y else best) x with hr
    have hrcons : r ∈ x :: xs := by
      rcases hmem with h' | h'
      · rw [h']; exact List.mem_cons_self x xs
      · exact List.mem_cons_of_mem x h'
    have hrfilter : r ∈ availableOf usage excluded := havail ▸ hrcons
    refine ⟨r, ?_, hrcons, List.mem_of_mem_filter hrfilter, ?_, ?_⟩
    · simp [selectModel, pickMin, havail, ← hr]
    · have := (List.mem_filter.mp hrfilter).2
      simpa using this
    · intro e he
      rcases List.mem_cons.mp he with rfl | he
      · exact hle
      · exact hall e he

/-- Witness for C4 at a concrete input. -/
theorem C4_selector_minimizes_cost_witness :
    selectModel [("a", ((100 : Int), 0, 0)), ("b", (50, 0, 0))] []
      = some ("b", [("a", (100, 0, 0)), ("b", (50, 0, 1))]) :=
  (C4_selector_minimizes_cost [("a", ((100 : Int), 0, 0)), ("b", (50, 0, 0))] []
    (by decide)).2

/-- If a pattern occurs nowhere in `s`, it occurs nowhere in any suffix. -/
theorem findSub_drop_none (pat s : List Char) (h : findSub pat s = none) :
    ∀ n, findSub pat (s.drop n) = none := by
  intro n
  induction n generalizing s with
  | zero => simpa using h
  | succ k ih =>
    cases s with
    | nil => simpa using h
    | cons c rest =>
      simp only [List.drop_succ_cons]
      apply ih
      simp only [findSub] at h
      split at h
      · exact absurd h (by simp)
      · simpa using h

/-- Without a `</think>` occurrence, no match attempt succeeds. -/
theorem tryMatch_none (s : List Char) (h : findSub closeThink s = none) :
    tryMatch s = none := by
  unfold tryMatch
  rw [findSub_drop_none closeThink s h 7, h]
  split <;> rfl

/-- Without a `</think>` occurrence, the search finds nothing. -/
theorem searchThink_none (s : List Char) (h : findSub closeThink s = none) :
    searchThink s = none := by
  induction s with
  | nil => simp [searchThink, tryMatch_none [] h]
  | cons c rest ih =>
    have hrest : findSub closeThink rest = none := by
      simp only [findSub] at h
      split at h
      · exact absurd h (by simp)
      · simpa using h
    simp [searchThink, tryMatch_none (c :: rest) h, ih hrest]

/-- Claim C3 (counterexample): on `"abc<think>reasoning</think>def"` the code
does not return content `"abcdef"` with reasoning `"reasoning"` — the lazy
group of `(?:<think>)?(.*?)</think>` starts at position 0, so everything
before `</think>` is captured as the reasoning and removed from the
content. -/
theorem C3_extraction_counterexample :
    extractReasoning "abc<think>reasoning</think>def".toList
      ≠ ("abcdef".toList, "reasoning".toList) := by
  decide

/-- Claim C3 (amended): on `"abc<think>reasoning</think>def"` the content
becomes `"def"` and the reasoning `"abc<think>reasoning"` (the text before
the marker is folded into the captured group and stripped from the content);
for every input with no occurrence of `"</think>"` the function returns the
content with surrounding whitespace stripped — hence unchanged whenever the
content has none — and an empty reasoning; and only the first
`</think>`-terminated block is extracted and removed, later blocks staying
in the content. -/
theorem C3_extraction_amended (s : List Char)
    (h : findSub closeThink s = none) :
    extractReasoning "abc<think>reasoning</think>def".toList
      = ("def".toList, "abc<think>reasoning".toList)
    ∧ extractReasoning s = (pyStrip s, [])
    ∧ extractReasoning "a<think>r1</think>b<think>r2</think>c".toList
      = ("b<think>r2</think>c".toList, "a<think>r1".toList) := by
  refine ⟨by decide, ?_, by decide⟩
  simp [extractReasoning, searchThink_none s h]

/-- Witness for the amended C3 at a concrete input. -/
theorem C3_extraction_amended_witness :
    extractReasoning " hello ".toList = (pyStrip " hello ".toList, []) :=
  (C3_extraction_amended " hello ".toList (by decide)).2.1

/-- A tool whose only parameter fails validation with a subscriptable value
(its type field is a string instead of a `ToolParamType`). -/
def c9badTool : PyTool :=
  ⟨"bad", "d", [.ptuple [.pstr "x", .pstr "notype", .pstr "d", .pbool true, .pnone]]⟩

/-- A tool with one well-formed parameter tuple. -/
def c9goodTool : PyTool :=
  ⟨"good", "g", [.ptuple [.pstr "x", .ptype 0, .pstr "d", .pbool true, .pnone]]⟩

/-- A tool whose parameter is an `int`: the assertion fails and the logging
line's `param[0]` subscript raises out of the whole builder. -/
def c9crashTool : PyTool := ⟨"crash", "c", [.pint 5]⟩

/-- Claim C9 (counterexample): when no tool survives validation the function
returns exactly the same result as for no tools requested — both are `None`
(`return tool_options or None` collapses the empty survivor list) — so the
two cases are not distinct. -/
theorem C9_tool_options_counterexample :
    buildToolOptions (some [c9badTool]) = buildToolOptions none
    ∧ buildToolOptions none = .ok none
    ∧ buildToolOptions (some []) = .ok none := ⟨rfl, rfl, rfl⟩

/-- Claim C9 (amended): a tool whose invalid parameter is still
subscriptable is dropped while the remaining valid tools proceed; when no
tool survives validation the result is `None`, identical to the result for
no tools requested (absent or empty list); and a tool with a
non-subscriptable (or empty) invalid parameter makes the entire builder
raise instead of being dropped. -/
theorem C9_tool_options_amended :
    buildToolOptions (some [c9goodTool, c9badTool])
      = .ok (some [⟨"good", "g", [("x", 0, "d", true, none)]⟩])
    ∧ buildToolOptions (some [c9badTool]) = .ok none
    ∧ buildToolOptions none = .ok none
    ∧ buildToolOptions (some []) = .ok none
    ∧ buildToolOptions (some [c9goodTool, c9crashTool]) = .error () :=
  ⟨rfl, rfl, rfl, rfl, rfl⟩

/-- Two-endpoint config with a single attempt per endpoint, used for the
concrete failover scenarios. -/
def c6cfg : Config :=
  { modelList := ["a", "b"]
    maxRetry := fun _ => 1
    retryInterval := fun _ => 1
    messageFactory := none
    compress := id }

/-- Claim C6: when an endpoint attempt fails with an underlying HTTP 400,
the failover loop finishes at once, raising that failure — no further
endpoint is selected or invoked; any other failure only records the failing
endpoint in the exclusion set and continues with the next iteration.  On a
concrete two-endpoint configuration whose first endpoint answers 400, the
whole request raises 400 after a single client call. -/
theorem C6_http400_aborts_whole_request (cfg : Config)
    (script : Nat → Nat → ClientResult) (fuel it : Nat) (st : ExecState)
    (m : String) (usage1 : List (String × Score)) (f : AttemptFailure)
    (st2 : Stats)
    (hsel : selectModel st.usage st.failed = some (m, usage1))
    (hatt : attemptRequestOnModel (script it) (cfg.retryInterval m)
        cfg.compress m (messageListOf cfg m) (cfg.maxRetry m)
        st.compressedMessages fuel st.stats
      = some (.error f, st2)) :
    (lastExcOf f = .exc (.respNotOk 400) →
      execStep cfg script fuel it st
        = .done (.raised (.exc (.respNotOk 400)))
            { usage := decUsagePenaltyIfPos (bumpFailPenalty usage1 m) m
              failed := if st.failed.contains m then st.failed
                        else st.failed ++ [m]
              lastExc := some (.exc (.respNotOk 400))
              compressedMessages := st.compressedMessages
              stats := st2 })
    ∧ (lastExcOf f ≠ .exc (.respNotOk 400) →
      execStep cfg script fuel it st
        = .next
            { usage := decUsagePenaltyIfPos (bumpFailPenalty usage1 m) m
              failed := if st.failed.contains m then st.failed
                        else st.failed ++ [m]
              lastExc := some (lastExcOf f)
              compressedMessages := st.compressedMessages
              stats := st2 })
    ∧ (executeRequest c6cfg (fun _ _ => .httpError 400) 2).1
        = .raised (.exc (.respNotOk 400))
    ∧ (executeRequest c6cfg (fun _ _ => .httpError 400) 2).2.stats.calls
        = [("a", [])] := by
  refine ⟨?_, ?_, rfl, rfl⟩
  · intro hle
    simp [execStep, hsel, hatt, hle]
  · intro hle
    simp [execStep, hsel, hatt, hle]

/-- Witness for C6 at a concrete input. -/
theorem C6_http400_aborts_whole_request_witness :
    execStep c6cfg (fun _ _ => .httpError 400) 2 0 (initState c6cfg)
      = .done (.raised (.exc (.respNotOk 400)))
          { usage := decUsagePenaltyIfPos
              (bumpFailPenalty [("a", ((0 : Int), 0, 1)), ("b", (0, 0, 0))] "a") "a"
            failed := if (initState c6cfg).failed.contains "a"
                      then (initState c6cfg).failed
                      else (initState c6cfg).failed ++ ["a"]
            lastExc := some (.exc (.respNotOk 400))
            compressedMessages := (initState c6cfg).compressedMessages
            stats := ⟨[("a", [])], [], 0⟩ } :=
  (C6_http400_aborts_whole_request c6cfg (fun _ _ => .httpError 400) 2 0
    (initState c6cfg) "a" [("a", ((0 : Int), 0, 1)), ("b", (0, 0, 0))]
    (.hardError (.respNotOk 400)) ⟨[("a", [])], [], 0⟩ rfl rfl).1 rfl

/-- The in-flight penalty column of the score table. -/
def penProj (usage : List (String × Score)) : List Int :=
  usage.map (fun e => e.2.2.2)

/-- A successful iteration restores every in-flight penalty: selection bumps
the chosen entry and the cleanup decrement undoes it, provided the column is
non-negative. -/
theorem penProj_ok_restore (u : List (String × Score)) (m : String)
    (h : ∀ e ∈ u, 0 ≤ e.2.2.2) :
    penProj (decUsagePenaltyIfPos (bumpUsagePenalty u m) m) = penProj u := by
  induction u with
  | nil => rfl
  | cons e rest ih =>
    have he : (0 : Int) ≤ e.2.2.2 := h e (List.mem_cons_self e rest)
    have hrest := ih (fun x hx => h x (List.mem_cons_of_mem e hx))
    simp only [bumpUsagePenalty, decUsagePenaltyIfPos, penProj, List.map_cons] at hrest ⊢
    by_cases hm : e.1 = m
    · have hpos : (0 : Int) < e.2.2.2 + 1 := by omega
      congr 1
      simp [hm, hpos]
    · congr 1
      simp [hm]

/-- A failed iteration likewise restores every in-flight penalty: the
failure-penalty bump touches only the middle column. -/
theorem penProj_err_restore (u : List (String × Score)) (m : String)
    (h : ∀ e ∈ u, 0 ≤ e.2.2.2) :
    penProj (decUsagePenaltyIfPos (bumpFailPenalty (bumpUsagePenalty u m) m) m)
      = penProj u := by
  induction u with
  | nil => rfl
  | cons e rest ih =>
    have he : (0 : Int) ≤ e.2.2.2 := h e (List.mem_cons_self e rest)
    have hrest := ih (fun x hx => h x (List.mem_cons_of_mem e hx))
    simp only [bumpUsagePenalty, bumpFailPenalty, decUsagePenaltyIfPos, penProj,
      List.map_cons] at hrest ⊢
    by_cases hm : e.1 = m
    · have hpos : (0 : Int) < e.2.2.2 + 1 := by omega
      congr 1
      simp [hm, hpos]
    · congr 1
      simp [hm]

/-- The table returned by a successful selection is the bumped input table. -/
theorem selectModel_usage_eq (u : List (String × Score)) (ex : List String)
    (m : String) (u2 : List (String × Score))
    (h : selectModel u ex = some (m, u2)) : u2 = bumpUsagePenalty u m := by
  unfold selectModel at h
  cases hp : pickMin (availableOf u ex) with
  | none => rw [hp] at h; cases h
  | some p =>
    rw [hp] at h
    obtain ⟨p1, p2⟩ := p
    simp only [Option.some.injEq, Prod.mk.injEq] at h
    rw [← h.2, h.1]

/-- One failover iteration preserves the in-flight column whenever it does
not diverge. -/
theorem execStep_penProj (cfg : Config) (script : Nat → Nat → ClientResult)
    (fuel it : Nat) (st : ExecState) (h : ∀ e ∈ st.usage, 0 ≤ e.2.2.2) :
    (∀ st', execStep cfg script fuel it st = .next st' →
        penProj st'.usage = penProj st.usage)
    ∧ (∀ r st', execStep cfg script fuel it st = .done r st' → r ≠ .diverged →
        penProj st'.usage = penProj st.usage) := by
  constructor
  · intro st' hstep
    unfold execStep at hstep
    cases hsel : selectModel st.usage st.failed with
    | none => simp only [hsel] at hstep; simp at hstep
    | some p =>
      obtain ⟨m, usage1⟩ := p
      have hu1 : usage1 = bumpUsagePenalty st.usage m :=
        selectModel_usage_eq _ _ _ _ hsel
      simp only [hsel] at hstep
      cases hatt : attemptRequestOnModel (script it) (cfg.retryInterval m)
          cfg.compress m (messageListOf cfg m) (cfg.maxRetry m)
          st.compressedMessages fuel st.stats with
      | none => simp only [hatt] at hstep; simp at hstep
      | some res =>
        obtain ⟨exr, st2⟩ := res
        cases exr with
        | ok rv => simp only [hatt] at hstep; simp at hstep
        | error f =>
          simp only [hatt] at hstep
          by_cases hle : lastExcOf f = .exc (.respNotOk 400)
          · rw [if_pos hle] at hstep
            simp at hstep
          · rw [if_neg hle] at hstep
            injection hstep with h2
            rw [← h2, hu1]
            exact penProj_err_restore st.usage m h
  · intro r st' hstep hr
    unfold execStep at hstep
    cases hsel : selectModel st.usage st.failed with
    | none =>
      simp only [hsel] at hstep
      injection hstep with h1 h2
      rw [← h2]
    | some p =>
      obtain ⟨m, usage1⟩ := p
      have hu1 : usage1 = bumpUsagePenalty st.usage m :=
        selectModel_usage_eq _ _ _ _ hsel
      simp only [hsel] at hstep
      cases hatt : attemptRequestOnModel (script it) (cfg.retryInterval m)
          cfg.compress m (messageListOf cfg m) (cfg.maxRetry m)
          st.compressedMessages fuel st.stats with
      | none =>
        simp only [hatt] at hstep
        injection hstep with h1 h2
        rw [← h1] at hr
        exact absurd rfl hr
      | some res =>
        obtain ⟨exr, st2⟩ := res
        cases exr with
        | ok rv =>
          simp only [hatt] at hstep
          injection hstep with h1 h2
          rw [← h2, hu1]
          exact penProj_ok_restore st.usage m h
        | error f =>
          simp only [hatt] at hstep
          by_cases hle : lastExcOf f = .exc (.respNotOk 400)
          · rw [if_pos hle] at hstep
            injection hstep with h1 h2
            rw [← h2, hu1]
            exact penProj_err_restore st.usage m h
          · rw [if_neg hle] at hstep
            simp at hstep

/-- The full failover loop preserves the in-flight column whenever it does
not diverge. -/
theorem execLoop_penProj (cfg : Config) (script : Nat → Nat → ClientResult)
    (fuel : Nat) : ∀ (r it : Nat) (st : ExecState),
    (∀ e ∈ st.usage, 0 ≤ e.2.2.2) →
    (execLoop cfg script fuel r it st).1 ≠ .diverged →
    penProj (execLoop cfg script fuel r it st).2.usage = penProj st.usage := by
  intro r
  induction r with
  | zero =>
    intro it st h hd
    cases hst : st.lastExc <;> simp [execLoop, hst]
  | succ k ih =>
    intro it st h hd
    rcases hstep : execStep cfg script fuel it st with ⟨res, st'⟩ | st'
    · have heq : execLoop cfg script fuel (k + 1) it st = (res, st') := by
        simp [execLoop, hstep]
      rw [heq] at hd ⊢
      exact (execStep_penProj cfg script fuel it st h).2 res st' hstep hd
    · have heq : execLoop cfg script fuel (k + 1) it st
          = execLoop cfg script fuel k (it + 1) st' := by
        simp [execLoop, hstep]
      rw [heq] at hd ⊢
      have hpp := (execStep_penProj cfg script fuel it st h).1 st' hstep
      have h' : ∀ e ∈ st'.usage, 0 ≤ e.2.2.2 := by
        intro e he
        have hmem : e.2.2.2 ∈ penProj st.usage := by
          rw [← hpp]
          exact List.mem_map_of_mem _ he
        rcases List.mem_map.mp hmem with ⟨x, hx, hxe⟩
        rw [← hxe]
        exact h x hx
      rw [ih (it + 1) st' h' hd, hpp]

/-- Every entry produced by the score-table initialisation is `(0, 0, 0)`. -/
theorem initUsage_entries : ∀ (ms : List String) (acc : List (String × Score)),
    (∀ e ∈ acc, e.2 = ((0 : Int), 0, 0)) →
    ∀ e ∈ ms.foldl
        (fun acc m =>
          if acc.any (fun e => e.1 = m) then acc else acc ++ [(m, (0, 0, 0))])
        acc,
      e.2 = ((0 : Int), 0, 0) := by
  intro ms
  induction ms with
  | nil =>
    intro acc h e he
    simpa using h e (by simpa using he)
  | cons m rest ih =>
    intro acc h
    simp only [List.foldl_cons]
    apply ih
    intro e he
    by_cases hc : acc.any (fun e => e.1 = m) = true
    · rw [if_pos hc] at he
      exact h e he
    · rw [if_neg hc] at he
      rcases List.mem_append.mp he with he' | he'
      · exact h e he'
      · simp only [List.mem_singleton] at he'
        rw [he']

/-- Claim C2: for a single request executed alone, every iteration of the
failover loop restores each endpoint's in-flight penalty (the third score
component) to its value from before that iteration's selection, on the
success, fatal-abort, whole-request-400 and continue paths alike; and after
the request concludes (without divergence) the whole in-flight column equals
its initial state, all zeroes — hence non-negative between requests. -/
theorem C2_inflight_penalty_restored (cfg : Config)
    (script : Nat → Nat → ClientResult) (fuel : Nat) :
    (∀ it st, (∀ e ∈ st.usage, 0 ≤ e.2.2.2) →
      (∀ st', execStep cfg script fuel it st = .next st' →
          penProj st'.usage = penProj st.usage)
      ∧ (∀ r st', execStep cfg script fuel it st = .done r st' →
          r ≠ .diverged → penProj st'.usage = penProj st.usage))
    ∧ ((executeRequest cfg script fuel).1 ≠ .diverged →
      penProj (executeRequest cfg script fuel).2.usage
          = penProj (initState cfg).usage
      ∧ ∀ x ∈ penProj (initState cfg).usage, x = 0) := by
  have hzero : ∀ e ∈ (initState cfg).usage, e.2 = ((0 : Int), 0, 0) :=
    fun e he => initUsage_entries cfg.modelList [] (by simp) e he
  constructor
  · exact fun it st h => execStep_penProj cfg script fuel it st h
  · intro hd
    constructor
    · exact execLoop_penProj cfg script fuel cfg.modelList.length 0
        (initState cfg) (fun e he => by rw [hzero e he]) hd
    · intro x hx
      rcases List.mem_map.mp hx with ⟨e, he, hxe⟩
      rw [← hxe, hzero e he]

/-- Witness for C2 at a concrete input. -/
theorem C2_inflight_penalty_restored_witness :
    penProj (executeRequest c6cfg (fun _ _ => .success 1) 3).2.usage
      = penProj (initState c6cfg).usage :=
  ((C2_inflight_penalty_restored c6cfg (fun _ _ => .success 1) 3).2
    (by decide)).1

/-- Concrete two-endpoint configuration instantiating the C7 theorem. -/
def c7cfg : Config :=
  { modelList := ["a", "b"]
    maxRetry := fun _ => 1
    retryInterval := fun _ => 1
    messageFactory := none
    compress := id }

/-- Concrete client script instantiating the C7 theorem with two different
endpoint-fatal outcomes: the first endpoint hits a hard 404, the second
exhausts its budget on network errors. -/
def c7script : Nat → Nat → ClientResult := fun it _ =>
  if it = 0 then .httpError 404 else .networkError

/-- The failures observed in the concrete C7 scenario: a hard 404 on the
first iteration, transient exhaustion on the second. -/
def c7F : Nat → String → AttemptFailure := fun it _ =>
  if it = 0 then .hardError (.respNotOk 404) else .retriesExhausted .netErr

/-- The `last_exception` value left behind by a run of the failover loop in
which the iteration starting at index `it` observes, on the suffix of
endpoints still to try, the failure `F it m` for the endpoint `m` it
attempts: each iteration overwrites the accumulator with its own failure. -/
def c7Last (F : Nat → String → AttemptFailure) :
    Option LastExc → Nat → List String → Option LastExc
  | le, _, [] => le
  | _, it, m :: rest => c7Last F (some (lastExcOf (F it m))) (it + 1) rest

/-- The accumulated last exception is the failure observed at the final
iteration, on the last endpoint of the suffix — or the start value when the
suffix is empty. -/
theorem c7Last_getLast (F : Nat → String → AttemptFailure) :
    ∀ (l : List String) (le : Option LastExc) (it : Nat),
    c7Last F le it l
      = (match l.getLast? with
         | some mlast => some (lastExcOf (F (it + l.length - 1) mlast))
         | none => le) := by
  intro l
  induction l with
  | nil => intro le it; rfl
  | cons m rest ih =>
    intro le it
    rw [show c7Last F le it (m :: rest)
        = c7Last F (some (lastExcOf (F it m))) (it + 1) rest from rfl]
    rw [ih (some (lastExcOf (F it m))) (it + 1)]
    cases rest with
    | nil => simp
    | cons a b =>
      rw [List.getLast?_cons_cons]
      cases hopt : (a :: b).getLast? with
      | none =>
        rw [List.getLast?_eq_none_iff] at hopt
        cases hopt
      | some ml =>
        simp only [List.length_cons]
        have hidx : it + 1 + (b.length + 1) - 1
            = it + (b.length + 1 + 1) - 1 := by omega
        rw [hidx]

/-- A fresh score entry. -/
def zEnt (x : String) : String × Score := (x, (0, 0, 0))

/-- A score entry after exactly one failed attempt. -/
def fEnt (x : String) : String × Score := (x, (0, 1, 0))

/-- The in-flight bump leaves a table untouched when the key is absent. -/
theorem bumpUsagePenalty_not_mem (l : List (String × Score)) (m : String)
    (h : ∀ e ∈ l, e.1 ≠ m) : bumpUsagePenalty l m = l := by
  induction l with
  | nil => rfl
  | cons e rest ih =>
    simp only [bumpUsagePenalty, List.map_cons] at ih ⊢
    rw [if_neg (h e (List.mem_cons_self e rest)),
      ih (fun x hx => h x (List.mem_cons_of_mem e hx))]

/-- The failure bump leaves a table untouched when the key is absent. -/
theorem bumpFailPenalty_not_mem (l : List (String × Score)) (m : String)
    (h : ∀ e ∈ l, e.1 ≠ m) : bumpFailPenalty l m = l := by
  induction l with
  | nil => rfl
  | cons e rest ih =>
    simp only [bumpFailPenalty, List.map_cons] at ih ⊢
    rw [if_neg (h e (List.mem_cons_self e rest)),
      ih (fun x hx => h x (List.mem_cons_of_mem e hx))]

/-- The cleanup decrement leaves a table untouched when the key is absent. -/
theorem decUsagePenaltyIfPos_not_mem (l : List (String × Score)) (m : String)
    (h : ∀ e ∈ l, e.1 ≠ m) : decUsagePenaltyIfPos l m = l := by
  induction l with
  | nil => rfl
  | cons e rest ih =>
    simp only [decUsagePenaltyIfPos, List.map_cons] at ih ⊢
    rw [if_neg (h e (List.mem_cons_self e rest)),
      ih (fun x hx => h x (List.mem_cons_of_mem e hx))]

/-- The in-flight bump distributes over append. -/
theorem bumpUsagePenalty_append (l1 l2 : List (String × Score)) (m : String) :
    bumpUsagePenalty (l1 ++ l2) m
      = bumpUsagePenalty l1 m ++ bumpUsagePenalty l2 m := by
  simp [bumpUsagePenalty]

/-- The failure bump distributes over append. -/
theorem bumpFailPenalty_append (l1 l2 : List (String × Score)) (m : String) :
    bumpFailPenalty (l1 ++ l2) m
      = bumpFailPenalty l1 m ++ bumpFailPenalty l2 m := by
  simp [bumpFailPenalty]

/-- The cleanup decrement distributes over append. -/
theorem decUsagePenaltyIfPos_append (l1 l2 : List (String × Score)) (m : String) :
    decUsagePenaltyIfPos (l1 ++ l2) m
      = decUsagePenaltyIfPos l1 m ++ decUsagePenaltyIfPos l2 m := by
  simp [decUsagePenaltyIfPos]

/-- The in-flight bump on a matching head. -/
theorem bumpUsagePenalty_cons_hit (s : Score) (l : List (String × Score))
    (m : String) :
    bumpUsagePenalty ((m, s) :: l) m
      = (m, (s.1, s.2.1, s.2.2 + 1)) :: bumpUsagePenalty l m := by
  simp [bumpUsagePenalty]

/-- The failure bump on a matching head. -/
theorem bumpFailPenalty_cons_hit (s : Score) (l : List (String × Score))
    (m : String) :
    bumpFailPenalty ((m, s) :: l) m
      = (m, (s.1, s.2.1 + 1, s.2.2)) :: bumpFailPenalty l m := by
  simp [bumpFailPenalty]

/-- The cleanup decrement on a matching head with a positive in-flight
penalty. -/
theorem decUsagePenaltyIfPos_cons_pos (s : Score) (l : List (String × Score))
    (m : String) (hs : s.2.2 > 0) :
    decUsagePenaltyIfPos ((m, s) :: l) m
      = (m, (s.1, s.2.1, s.2.2 - 1)) :: decUsagePenaltyIfPos l m := by
  simp [decUsagePenaltyIfPos, hs]

/-- Availability filter for the C7 invariant: the already-failed prefix is
filtered out, the untouched suffix is kept whole. -/
theorem availableOf_split (done rest : List String)
    (hdisj : ∀ x ∈ done, x ∉ rest) :
    availableOf (done.map fEnt ++ rest.map zEnt) done = rest.map zEnt := by
  unfold availableOf
  rw [List.filter_append]
  have h1 : (done.map fEnt).filter
      (fun e => done.isEmpty || !done.contains e.1) = [] := by
    rw [List.filter_eq_nil_iff]
    intro e he
    rcases List.mem_map.mp he with ⟨x, hx, hxe⟩
    have hemp : done.isEmpty = false := by
      cases done with
      | nil => exact absurd hx (List.not_mem_nil x)
      | cons a l => rfl
    have hcont : done.contains e.1 = true := by
      simp only [List.contains_eq_any_beq, List.any_eq_true]
      exact ⟨x, hx, by rw [← hxe]; simp [fEnt]⟩
    rw [hemp, hcont]
    decide
  have h2 : (rest.map zEnt).filter
      (fun e => done.isEmpty || !done.contains e.1) = rest.map zEnt := by
    rw [List.filter_eq_self]
    intro e he
    rcases List.mem_map.mp he with ⟨x, hx, hxe⟩
    have hnm : e.1 ∉ done := by
      rw [← hxe]
      intro hmem
      exact hdisj x (by simpa [zEnt] using hmem) hx
    have hcont : done.contains e.1 = false := by
      simp only [List.contains_eq_any_beq, List.any_eq_false]
      intro y hy
      simp only [beq_iff_eq]
      intro hey
      exact hnm (hey ▸ hy)
    rw [hcont]
    simp
  rw [h1, h2, List.nil_append]

/-- The fold underlying `pickMin` keeps its start value while no input is
strictly cheaper. -/
theorem pickMin_fold_keep (xs : List (String × Score)) (x : String × Score)
    (h : ∀ y ∈ xs, ¬costOf y.2 < costOf x.2) :
    xs.foldl (fun best y => if costOf y.2 < costOf best.2 then y else best) x
      = x := by
  induction xs with
  | nil => rfl
  | cons z zs ih =>
    simp only [List.foldl_cons]
    rw [if_neg (h z (List.mem_cons_self z zs))]
    exact ih (fun y hy => h y (List.mem_cons_of_mem z hy))

/-- One failover iteration under the C7 invariant, for an arbitrary
configuration and an arbitrary non-400 failure: the head of the untouched
suffix is selected (it has the minimal cost 0, failed endpoints are
excluded), its attempt aborts, its failure penalty is bumped and its
in-flight penalty restored, it joins the exclusion list, and the loop
continues with its failure recorded as `last_exception`. -/
theorem c7_step (cfg : Config) (script : Nat → Nat → ClientResult)
    (fuel : Nat) (done : List String) (m : String) (rest : List String)
    (hnodup : (done ++ m :: rest).Nodup) (le : Option LastExc) (sts : Stats)
    (st2 : Stats) (f : AttemptFailure) (it : Nat)
    (hatt : attemptRequestOnModel (script it) (cfg.retryInterval m)
        cfg.compress m (messageListOf cfg m) (cfg.maxRetry m) none fuel sts
      = some (.error f, st2))
    (hf400 : lastExcOf f ≠ .exc (.respNotOk 400)) :
    execStep cfg script fuel it
      { usage := done.map fEnt ++ zEnt m :: rest.map zEnt
        failed := done
        lastExc := le
        compressedMessages := none
        stats := sts }
      = .next
          { usage := done.map fEnt ++ fEnt m :: rest.map zEnt
            failed := done ++ [m]
            lastExc := some (lastExcOf f)
            compressedMessages := none
            stats := st2 } := by
  rcases List.nodup_append.mp hnodup with ⟨hdone, hcons, hdisj⟩
  have hmdone : m ∉ done := fun hm => hdisj hm (List.mem_cons_self m rest)
  rcases List.nodup_cons.mp hcons with ⟨hmrest, hrest⟩
  have hdisj' : ∀ x ∈ done, x ∉ m :: rest := fun x hx => hdisj hx
  have hdonekeys : ∀ e ∈ done.map fEnt, e.1 ≠ m := by
    intro e he
    rcases List.mem_map.mp he with ⟨x, hx, hxe⟩
    rw [← hxe]
    simp only [fEnt]
    intro hxm
    exact hmdone (hxm ▸ hx)
  have hrestkeys : ∀ e ∈ rest.map zEnt, e.1 ≠ m := by
    intro e he
    rcases List.mem_map.mp he with ⟨x, hx, hxe⟩
    rw [← hxe]
    simp only [zEnt]
    intro hxm
    exact hmrest (hxm ▸ hx)
  have havail : availableOf (done.map fEnt ++ zEnt m :: rest.map zEnt) done
      = zEnt m :: rest.map zEnt := by
    have := availableOf_split done (m :: rest) hdisj'
    simpa [List.map_cons] using this
  have hpick : pickMin (zEnt m :: rest.map zEnt) = some (zEnt m) := by
    simp only [pickMin, Option.some.injEq]
    refine pickMin_fold_keep (rest.map zEnt) (zEnt m) ?_
    intro y hy
    rcases List.mem_map.mp hy with ⟨x, hx, hxe⟩
    rw [← hxe]
    simp [zEnt, costOf]
  have hb : bumpUsagePenalty (done.map fEnt ++ zEnt m :: rest.map zEnt) m
      = done.map fEnt ++ (m, ((0 : Int), 0, 1)) :: rest.map zEnt := by
    rw [bumpUsagePenalty_append, bumpUsagePenalty_not_mem _ m hdonekeys,
      show zEnt m :: rest.map zEnt = ((m, ((0 : Int), 0, 0)) :: rest.map zEnt) from rfl,
      bumpUsagePenalty_cons_hit, bumpUsagePenalty_not_mem _ m hrestkeys]
    norm_num
  have hsel : selectModel (done.map fEnt ++ zEnt m :: rest.map zEnt) done
      = some (m, done.map fEnt ++ (m, ((0 : Int), 0, 1)) :: rest.map zEnt) := by
    unfold selectModel
    rw [havail, hpick]
    exact congrArg (fun u => some ((zEnt m).1, u)) hb
  have hcont : done.contains m = false := by
    simp only [List.contains_eq_any_beq, List.any_eq_false]
    intro y hy
    simp only [beq_iff_eq]
    intro hmy
    exact hmdone (hmy ▸ hy)
  have hfail : bumpFailPenalty
      (done.map fEnt ++ (m, ((0 : Int), 0, 1)) :: rest.map zEnt) m
      = done.map fEnt ++ (m, ((0 : Int), 1, 1)) :: rest.map zEnt := by
    rw [bumpFailPenalty_append, bumpFailPenalty_not_mem _ m hdonekeys,
      bumpFailPenalty_cons_hit, bumpFailPenalty_not_mem _ m hrestkeys]
    norm_num
  have hdec : decUsagePenaltyIfPos
      (done.map fEnt ++ (m, ((0 : Int), 1, 1)) :: rest.map zEnt) m
      = done.map fEnt ++ fEnt m :: rest.map zEnt := by
    rw [decUsagePenaltyIfPos_append, decUsagePenaltyIfPos_not_mem _ m hdonekeys,
      decUsagePenaltyIfPos_cons_pos _ _ _ (by norm_num),
      decUsagePenaltyIfPos_not_mem _ m hrestkeys]
    norm_num [fEnt]
  simp only [execStep, hsel, hatt, hcont, hfail, hdec, hf400]
  simp

/-- The failover loop under the C7 hypothesis — every attempt of any
endpoint aborts with a non-400 failure `F it m` — from an arbitrary split of
the endpoint list into an already-failed prefix and an untouched suffix:
every remaining endpoint is tried once in order, bumped and excluded, and
the loop ends with the accumulated last failure. -/
theorem c7_loop (cfg : Config) (script : Nat → Nat → ClientResult)
    (fuel : Nat) (ms : List String) (F : Nat → String → AttemptFailure)
    (h : ∀ it m sts, it < ms.length → m ∈ ms →
      ∃ st2, attemptRequestOnModel (script it) (cfg.retryInterval m)
          cfg.compress m (messageListOf cfg m) (cfg.maxRetry m) none fuel sts
        = some (.error (F it m), st2))
    (hf : ∀ it m, it < ms.length → m ∈ ms →
      lastExcOf (F it m) ≠ .exc (.respNotOk 400)) :
    ∀ (rest done : List String) (le : Option LastExc) (sts : Stats) (it : Nat),
    (done ++ rest).Nodup → (∀ x ∈ rest, x ∈ ms) →
    it + rest.length ≤ ms.length →
    ∃ stsF,
      execLoop cfg script fuel rest.length it
        { usage := done.map fEnt ++ rest.map zEnt
          failed := done
          lastExc := le
          compressedMessages := none
          stats := sts }
        = ((match c7Last F le it rest with
            | some e => ExecResult.raised e
            | none => ExecResult.allFailedGeneric),
           { usage := (done ++ rest).map fEnt
             failed := done ++ rest
             lastExc := c7Last F le it rest
             compressedMessages := none
             stats := stsF }) := by
  intro rest
  induction rest with
  | nil =>
    intro done le sts it hnodup hsub hlen
    refine ⟨sts, ?_⟩
    simp only [List.length_nil, execLoop, c7Last, List.map_nil,
      List.append_nil]
    cases le <;> simp
  | cons m rest ih =>
    intro done le sts it hnodup hsub hlen
    have hmms : m ∈ ms := hsub m (List.mem_cons_self m rest)
    have hit : it < ms.length := by
      simp only [List.length_cons] at hlen
      omega
    obtain ⟨st2, hatt⟩ := h it m sts hit hmms
    have hf400 := hf it m hit hmms
    have hnodup2 : ((done ++ [m]) ++ rest).Nodup := by
      rw [List.append_assoc, List.singleton_append]
      exact hnodup
    have hsub2 : ∀ x ∈ rest, x ∈ ms :=
      fun x hx => hsub x (List.mem_cons_of_mem m hx)
    have hlen2 : (it + 1) + rest.length ≤ ms.length := by
      simp only [List.length_cons] at hlen
      omega
    obtain ⟨stsF, hih⟩ := ih (done ++ [m]) (some (lastExcOf (F it m))) st2
      (it + 1) hnodup2 hsub2 hlen2
    rw [show (done ++ [m]).map fEnt ++ rest.map zEnt
        = done.map fEnt ++ fEnt m :: rest.map zEnt by
      simp [List.map_append]] at hih
    have hstep : execLoop cfg script fuel (m :: rest).length it
        { usage := done.map fEnt ++ (m :: rest).map zEnt
          failed := done
          lastExc := le
          compressedMessages := none
          stats := sts }
        = execLoop cfg script fuel rest.length (it + 1)
            { usage := done.map fEnt ++ fEnt m :: rest.map zEnt
              failed := done ++ [m]
              lastExc := some (lastExcOf (F it m))
              compressedMessages := none
              stats := st2 } := by
      simp only [List.length_cons, execLoop, List.map_cons]
      rw [c7_step cfg script fuel done m rest hnodup le sts st2 (F it m) it
        hatt hf400]
    refine ⟨stsF, ?_⟩
    rw [hstep, hih]
    rw [show c7Last F le it (m :: rest)
        = c7Last F (some (lastExcOf (F it m))) (it + 1) rest from rfl]
    simp [List.append_assoc]


/-- With unique endpoint names, the fresh score table is one zero entry per
endpoint, in order. -/
theorem initUsage_of_nodup : ∀ (ms : List String) (acc : List (String × Score)),
    ms.Nodup → (∀ x ∈ ms, ∀ e ∈ acc, e.1 ≠ x) →
    ms.foldl
        (fun acc m =>
          if acc.any (fun e => e.1 = m) then acc else acc ++ [(m, (0, 0, 0))])
        acc
      = acc ++ ms.map zEnt := by
  intro ms
  induction ms with
  | nil => intro acc h1 h2; simp
  | cons m rest ih =>
    intro acc h1 h2
    rcases List.nodup_cons.mp h1 with ⟨hmrest, hrest⟩
    simp only [List.foldl_cons]
    have hany : acc.any (fun e => decide (e.1 = m)) = false := by
      rw [List.any_eq_false]
      intro e he
      simpa using h2 m (List.mem_cons_self m rest) e he
    rw [if_neg (by simp [hany])]
    rw [ih (acc ++ [(m, (0, 0, 0))]) hrest ?_]
    · simp [List.append_assoc, zEnt]
    · intro x hx e he
      rcases List.mem_append.mp he with he' | he'
      · exact h2 x (List.mem_cons_of_mem m hx) e he'
      · simp only [List.mem_singleton] at he'
        rw [he']
        intro hmx
        have hmx' : m = x := hmx
        exact hmrest (hmx' ▸ hx)

/-- Claim C7: for any configuration of N uniquely named endpoints (any
retry budgets, backoff intervals, message factory and compressor) and any
client behavior under which every endpoint's attempt aborts with a failure
whose underlying exception is not HTTP 400 — transient exhaustion, hard
401/402/403/404/other errors, never-attempted, mixed arbitrarily across
endpoints and iterations via `F` — the request runs exactly N iterations,
one per endpoint in table order: the final exclusion set equals the whole
endpoint list, each endpoint's failure penalty is incremented exactly once
with its in-flight penalty restored (final score `(0, 1, 0)` everywhere),
and the call fails surfacing the failure observed at the last iteration on
the last endpoint — or the generic all-endpoints-failed error when no
underlying failure was recorded (no endpoints configured). -/
theorem C7_all_endpoints_fatal (cfg : Config)
    (script : Nat → Nat → ClientResult) (fuel : Nat)
    (F : Nat → String → AttemptFailure)
    (h : ∀ it m sts, it < cfg.modelList.length → m ∈ cfg.modelList →
      ∃ st2, attemptRequestOnModel (script it) (cfg.retryInterval m)
          cfg.compress m (messageListOf cfg m) (cfg.maxRetry m) none fuel sts
        = some (.error (F it m), st2))
    (hf : ∀ it m, it < cfg.modelList.length → m ∈ cfg.modelList →
      lastExcOf (F it m) ≠ .exc (.respNotOk 400))
    (hnd : cfg.modelList.Nodup) :
    ((executeRequest cfg script fuel).1
      = match cfg.modelList.getLast? with
        | some mlast =>
          .raised (lastExcOf (F (cfg.modelList.length - 1) mlast))
        | none => .allFailedGeneric)
    ∧ (executeRequest cfg script fuel).2.failed = cfg.modelList
    ∧ (executeRequest cfg script fuel).2.usage = cfg.modelList.map fEnt
    ∧ (executeRequest cfg script fuel).2.compressedMessages = none := by
  have hinitU : initUsage cfg.modelList = cfg.modelList.map zEnt := by
    unfold initUsage
    rw [initUsage_of_nodup cfg.modelList [] hnd (by simp)]
    simp
  have hinit : initState cfg
      = { usage := cfg.modelList.map zEnt
          failed := []
          lastExc := none
          compressedMessages := none
          stats := ⟨[], [], 0⟩ } := by
    unfold initState
    rw [hinitU]
  obtain ⟨stsF, hloop⟩ := c7_loop cfg script fuel cfg.modelList F h hf
    cfg.modelList [] none ⟨[], [], 0⟩ 0 (by simpa using hnd)
    (fun x hx => hx) (by omega)
  simp only [List.map_nil, List.nil_append] at hloop
  have hrun : executeRequest cfg script fuel
      = execLoop cfg script fuel cfg.modelList.length 0 (initState cfg) := rfl
  rw [hrun, hinit, hloop]
  rw [c7Last_getLast F cfg.modelList none 0]
  cases hopt : cfg.modelList.getLast? with
  | none => simp
  | some mlast => simp

/-- Witness for C7 at a concrete input with two different endpoint-fatal
failures: a hard 404 on the first endpoint, transient network exhaustion on
the second; the request surfaces the second — the last observed — failure. -/
theorem C7_all_endpoints_fatal_witness :
    (executeRequest c7cfg c7script 2).2.failed = ["a", "b"]
    ∧ (executeRequest c7cfg c7script 2).1 = .raised (.exc .netErr) := by
  have h1 : ∀ it m sts, it < c7cfg.modelList.length → m ∈ c7cfg.modelList →
      ∃ st2, attemptRequestOnModel (c7script it) (c7cfg.retryInterval m)
          c7cfg.compress m (messageListOf c7cfg m) (c7cfg.maxRetry m) none 2 sts
        = some (.error (c7F it m), st2) := by
    intro it m sts hit hm
    have hit2 : it < 2 := hit
    match it, hit2 with
    | 0, _ => exact ⟨_, rfl⟩
    | 1, _ => exact ⟨_, rfl⟩
    | n + 2, hh => exact absurd hh (by omega)
  have h2 : ∀ it m, it < c7cfg.modelList.length → m ∈ c7cfg.modelList →
      lastExcOf (c7F it m) ≠ .exc (.respNotOk 400) := by
    intro it m hit hm
    have hit2 : it < 2 := hit
    match it, hit2 with
    | 0, _ => simp [c7F, lastExcOf]
    | 1, _ => simp [c7F, lastExcOf]
    | n + 2, hh => exact absurd hh (by omega)
  have hmain := C7_all_endpoints_fatal c7cfg c7script 2 c7F h1 h2 (by decide)
  refine ⟨hmain.2.1, ?_⟩
  rw [hmain.1]
  rfl

end MaiBot
